import Mathlib

/-
Verification of the walrus-sdk client-side encryption subsystem.

Shallow embedding of the encryption core (src/encryption/gcm.ts,
src/encryption/cbc.ts, src/encryption/index.ts, plus the validators in
utils/helpers.ts and the error factory in types.ts).

Modelling choices:
  * Byte buffers (Uint8Array) are List Nat.
  * Every error thrown via createWalrusError is classified into the
    error taxonomy (ValidationError / FormatError / PaddingError /
    CryptoError) keyed by the exact message string the source passes.
  * The WebCrypto primitives (subtle.encrypt / subtle.decrypt) are
    modelled concretely over an abstract keyed block permutation for
    AES-CBC (including the PKCS-7 layer that WebCrypto itself applies
    inside AES-CBC encrypt/decrypt) and an abstract keystream plus tag
    function for AES-GCM. Theorems quantify over these primitives under
    the standard inverse and length assumptions.
  * Promise-returning functions become pure functions; failure becomes
    Except. The stream types become the list of chunks read from the
    source and a record of the chunks written to (and the closing of)
    the destination.
  * The fresh random IV drawn by crypto.getRandomValues inside the GCM
    encrypt is an explicit parameter, so theorems quantify over every
    value the randomness may take.
-/

/-- Error taxonomy of the SDK. The source throws a single WalrusError
class; the class of each throw is determined by its message, which we
carry for exactness. -/
inductive WalrusErr where
  | validation (msg : String)
  | format (msg : String)
  | padding (msg : String)
  | crypto (msg : String)
deriving DecidableEq, Repr

deriving instance DecidableEq for Except

/-- Magic bytes identifying encrypted content, 0x57 0x41 0x4C, the ASCII
for WAL (gcm.ts line 6 and cbc.ts line 6). -/
def MAGIC_BYTES : List Nat := [0x57, 0x41, 0x4C]

/-- IV length of the GCM (stream-cipher) suite, gcm.ts line 9. -/
def GCM_IV_LENGTH : Nat := 12

/-- Tag length of the GCM suite in bytes, gcm.ts line 10. -/
def TAG_LENGTH : Nat := 16

/-- IV length of the CBC (block-cipher) suite, cbc.ts line 9. -/
def CBC_IV_LENGTH : Nat := 16

/-- AES block size used by the CBC suite, cbc.ts line 10. -/
def CBC_BLOCK_SIZE : Nat := 16

/-- Embedding of validateAesKey (utils/helpers.ts): a key must be 16, 24
or 32 bytes, otherwise a ValidationError is thrown. -/
def validateAesKey (key : List Nat) : Except WalrusErr Unit :=
  if key.length = 16 ∨ key.length = 24 ∨ key.length = 32 then Except.ok ()
  else Except.error (WalrusErr.validation
    "AES key must be 16, 24, or 32 bytes (128, 192, or 256 bits)")

/-- Byte-wise xor of two buffers (truncating to the shorter, as zipWith
does; all uses have equal lengths). Models the xor step of CBC chaining
and of the GCM keystream application inside the WebCrypto primitives. -/
def xorBytes (a b : List Nat) : List Nat :=
  List.zipWith (fun x y => x ^^^ y) a b

/-- Concatenation of a list of chunks into one buffer, in arrival order.
Models the combining loop of readStreamToUint8Array in both gcm.ts and
cbc.ts, and flattening of block sequences. -/
def concatChunks : List (List Nat) → List Nat
  | [] => []
  | c :: cs => c ++ concatChunks cs

/-- Splitting of a buffer into consecutive 16-byte blocks (the last block
shorter when the length is not a multiple of 16). Used to model the
block structure inside the WebCrypto AES-CBC primitive. -/
def chunksB (l : List Nat) : List (List Nat) :=
  if h : l = [] then [] else l.take 16 :: chunksB (l.drop 16)
termination_by l.length
decreasing_by
  simp only [List.length_drop]
  have h0 : 0 < l.length := List.length_pos.mpr h
  omega

/-- Embedding of padData (cbc.ts lines 71-80): PKCS-7 padding. Computes
paddingLength = 16 - (len mod 16) and appends that many bytes each
holding the value paddingLength. -/
def padData (data : List Nat) : List Nat :=
  let paddingLength := CBC_BLOCK_SIZE - data.length % CBC_BLOCK_SIZE
  data ++ List.replicate paddingLength paddingLength

/-- Embedding of unpadData (cbc.ts lines 85-107): PKCS-7 padding removal.
An empty buffer is returned unchanged; otherwise the last byte is read
as the padding length, which must be in 1..16, and every one of the last
paddingLength bytes must equal paddingLength, otherwise a PaddingError;
in particular, when paddingLength exceeds the buffer length the source
loop reads an out-of-range index (undefined, never equal to the padding
byte) and throws, which the length conjunct below captures. -/
def unpadData (data : List Nat) : Except WalrusErr (List Nat) :=
  if data.length = 0 then Except.ok data
  else
    let paddingLength := data.getLastD 0
    if paddingLength = 0 ∨ CBC_BLOCK_SIZE < paddingLength then
      Except.error (WalrusErr.padding "Invalid padding length")
    else if paddingLength ≤ data.length ∧
        ((data.drop (data.length - paddingLength)).all
          (fun b => b == paddingLength)) = true then
      Except.ok (data.take (data.length - paddingLength))
    else Except.error (WalrusErr.padding "Invalid padding")

/-- CBC-mode chaining over a list of plaintext blocks with an abstract
block encryption Ek (the AES permutation under the imported key): each
output block is Ek of the xor of the plaintext block with the previous
ciphertext block (initially the IV). Models the core of the WebCrypto
AES-CBC encrypt primitive. -/
def cbcEnc (Ek : List Nat → List Nat) : List Nat → List (List Nat) → List (List Nat)
  | _, [] => []
  | prev, b :: bs =>
    let c := Ek (xorBytes b prev)
    c :: cbcEnc Ek c bs

/-- CBC-mode unchaining over a list of ciphertext blocks with an abstract
block decryption Dk: each plaintext block is the xor of Dk of the
ciphertext block with the previous ciphertext block (initially the IV).
Models the core of the WebCrypto AES-CBC decrypt primitive. -/
def cbcDec (Dk : List Nat → List Nat) : List Nat → List (List Nat) → List (List Nat)
  | _, [] => []
  | prev, c :: cs => xorBytes (Dk c) prev :: cbcDec Dk c cs

/-- PKCS-7 unpadding step performed internally by the WebCrypto AES-CBC
decrypt primitive (an invalid padding yields an OperationError, here
none). -/
def subtleUnpad (dec : List Nat) : Option (List Nat) :=
  let p := dec.getLastD 0
  if 1 ≤ p ∧ p ≤ 16 ∧ p ≤ dec.length ∧
      ((dec.drop (dec.length - p)).all (fun b => b == p)) = true then
    some (dec.take (dec.length - p))
  else none

/-- Model of the WebCrypto subtle.encrypt AES-CBC primitive: PKCS-7 pads
its input (the primitive itself always pads) and CBC-encrypts the padded
buffer under the abstract keyed block permutation Ek with the given IV. -/
def subtleEncryptCBC (Ek : List Nat → List Nat) (iv input : List Nat) : List Nat :=
  concatChunks (cbcEnc Ek iv (chunksB (padData input)))

/-- Model of the WebCrypto subtle.decrypt AES-CBC primitive: rejects an
empty ciphertext or one whose length is not a multiple of the block
size, CBC-decrypts, and removes the primitive-level PKCS-7 padding,
failing (OperationError, here none) when that padding is invalid. -/
def subtleDecryptCBC (Dk : List Nat → List Nat) (iv ct : List Nat) : Option (List Nat) :=
  if ct.length = 0 ∨ ct.length % 16 ≠ 0 then none
  else subtleUnpad (concatChunks (cbcDec Dk iv (chunksB ct)))

/-- Cipher instance produced by createCBCCipher: the raw key bytes and
the caller-supplied IV captured by the closure (cbc.ts lines 27-29). -/
structure CBCCipher where
  key : List Nat
  iv : List Nat
deriving DecidableEq, Repr

/-- Embedding of createCBCCipher (cbc.ts lines 17-31): validates the key
(validateAesKey), requires an IV, and validates the IV length is exactly
16 (validateUint8Array with requiredLength IV_LENGTH); each failure is a
ValidationError with the source message. -/
def createCBCCipher (key : List Nat) (iv : Option (List Nat)) : Except WalrusErr CBCCipher :=
  match validateAesKey key with
  | Except.error e => Except.error e
  | Except.ok _ =>
    match iv with
    | none => Except.error (WalrusErr.validation
        "Initialization vector (IV) is required for CBC mode")
    | some ivv =>
      if ivv.length = CBC_IV_LENGTH then Except.ok ⟨key, ivv⟩
      else Except.error (WalrusErr.validation "IV must be 16 bytes long")

/-- Embedding of the CBC encrypt closure (cbc.ts lines 143-169): pads the
plaintext with padData, encrypts the padded buffer with the AES-CBC
primitive under the instance key and the instance IV, and prepends the
magic bytes and the instance IV. E is the abstract keyed AES block
permutation (key then block). -/
def cbcEncrypt (E : List Nat → List Nat → List Nat) (c : CBCCipher)
    (data : List Nat) : List Nat :=
  MAGIC_BYTES ++ c.iv ++ subtleEncryptCBC (E c.key) c.iv (padData data)

/-- Embedding of the CBC decrypt closure (cbc.ts lines 174-207): after
the (already cached or freshly imported) key is ensured, rejects inputs
shorter than magic plus IV with a FormatError, rejects a wrong magic
prefix with a FormatError, then extracts the embedded IV (bytes 3..18)
and the ciphertext (bytes 19..), decrypts with the AES-CBC primitive
under the extracted IV, and removes the padData padding; any failure of
the primitive or of unpadData inside the try block is rethrown as the
CryptoError message Decryption failed. D is the abstract keyed AES block
inverse permutation. -/
def cbcDecrypt (D : List Nat → List Nat → List Nat) (c : CBCCipher)
    (data : List Nat) : Except WalrusErr (List Nat) :=
  if data.length < MAGIC_BYTES.length + CBC_IV_LENGTH then
    Except.error (WalrusErr.format "Invalid encrypted data: too short")
  else if data.take MAGIC_BYTES.length = MAGIC_BYTES then
    let extractedIv := (data.drop MAGIC_BYTES.length).take CBC_IV_LENGTH
    let ct := data.drop (MAGIC_BYTES.length + CBC_IV_LENGTH)
    match subtleDecryptCBC (D c.key) extractedIv ct with
    | none => Except.error (WalrusErr.crypto "Decryption failed")
    | some dec =>
      match unpadData dec with
      | Except.ok r => Except.ok r
      | Except.error _ => Except.error (WalrusErr.crypto "Decryption failed")
  else Except.error (WalrusErr.format "Invalid encrypted data: invalid magic bytes")

/-- Abstract model of the WebCrypto AES-GCM primitive pair: ks gives the
keystream bytes produced under (key, iv) for a requested length, and tag
gives the 16-byte authentication tag over (key, iv, ciphertext).
Theorems assume ks produces exactly the requested length and tag exactly
16 bytes. -/
structure GCMPrim where
  ks : List Nat → List Nat → Nat → List Nat
  tag : List Nat → List Nat → List Nat → List Nat

/-- Model of the WebCrypto subtle.encrypt AES-GCM primitive: the
ciphertext is the plaintext xored with the keystream, with the 16-byte
authentication tag appended by the primitive itself. -/
def subtleEncryptGCM (prim : GCMPrim) (key iv data : List Nat) : List Nat :=
  let ct := xorBytes data (prim.ks key iv data.length)
  ct ++ prim.tag key iv ct

/-- Model of the WebCrypto subtle.decrypt AES-GCM primitive: fails
(OperationError, here none) when the input is shorter than the tag,
splits off the trailing 16-byte tag, fails when the tag does not verify,
and otherwise returns the ciphertext xored with the keystream. -/
def subtleDecryptGCM (prim : GCMPrim) (key iv buf : List Nat) : Option (List Nat) :=
  if buf.length < 16 then none
  else
    let ct := buf.take (buf.length - 16)
    let tg := buf.drop (buf.length - 16)
    if tg = prim.tag key iv ct then some (xorBytes ct (prim.ks key iv ct.length))
    else none

/-- Cipher instance produced by createGCMCipher: the raw key bytes
captured by the closure (gcm.ts lines 17-23). -/
structure GCMCipher where
  key : List Nat
deriving DecidableEq, Repr

/-- Embedding of createGCMCipher (gcm.ts lines 17-19): validates the key
with validateAesKey; no IV is ever supplied at construction. -/
def createGCMCipher (keyData : List Nat) : Except WalrusErr GCMCipher :=
  match validateAesKey keyData with
  | Except.error e => Except.error e
  | Except.ok _ => Except.ok ⟨keyData⟩

/-- Embedding of the GCM encrypt closure (gcm.ts lines 65-89): iv is the
12-byte value drawn from crypto.getRandomValues, made explicit here so
that statements quantify over every value the randomness may take; the
output is magic bytes, then the IV, then the primitive output
(ciphertext plus tag). -/
def gcmEncrypt (prim : GCMPrim) (c : GCMCipher) (iv data : List Nat) : List Nat :=
  MAGIC_BYTES ++ iv ++ subtleEncryptGCM prim c.key iv data

/-- Embedding of the GCM decrypt closure (gcm.ts lines 96-125): after the
key is ensured, compares the first three bytes with the magic constant
(no length check exists in this suite), extracts bytes 3..14 as the IV
and bytes 15.. as the ciphertext, and calls the AES-GCM decrypt
primitive; any primitive failure is rethrown as the opaque CryptoError
message. -/
def gcmDecrypt (prim : GCMPrim) (c : GCMCipher) (data : List Nat) :
    Except WalrusErr (List Nat) :=
  if data.take MAGIC_BYTES.length = MAGIC_BYTES then
    let iv := (data.drop MAGIC_BYTES.length).take GCM_IV_LENGTH
    let ct := data.drop (MAGIC_BYTES.length + GCM_IV_LENGTH)
    match subtleDecryptGCM prim c.key iv ct with
    | some pt => Except.ok pt
    | none => Except.error (WalrusErr.crypto
        "Decryption failed: invalid key or corrupted data")
  else Except.error (WalrusErr.format "Invalid encrypted data: missing magic bytes")

/-- Cryptographic operations a decrypt call may attempt, in order:
the key import performed by ensureKey on a fresh instance, and the
subtle.decrypt primitive call. -/
inductive CryptoOp where
  | keyImport
  | primitive
deriving DecidableEq, Repr

/-- Trace of cryptographic operations attempted by the CBC decrypt
closure on a fresh instance, following its control flow (cbc.ts lines
174-207): ensureKey runs first and imports the key; the length and magic
checks follow; only when both pass is the subtle.decrypt primitive
invoked. -/
def cbcDecryptOps (data : List Nat) : List CryptoOp :=
  CryptoOp.keyImport ::
    (if data.length < MAGIC_BYTES.length + CBC_IV_LENGTH then []
     else if data.take MAGIC_BYTES.length = MAGIC_BYTES then [CryptoOp.primitive]
     else [])

/-- Trace of cryptographic operations attempted by the GCM decrypt
closure on a fresh instance, following its control flow (gcm.ts lines
96-125): ensureKey runs first and imports the key; the magic comparison
follows (there is no length check); when the magic matches, the
subtle.decrypt primitive is invoked. -/
def gcmDecryptOps (data : List Nat) : List CryptoOp :=
  CryptoOp.keyImport ::
    (if data.take MAGIC_BYTES.length = MAGIC_BYTES then [CryptoOp.primitive]
     else [])

/-- Chunks written to a destination WritableStream together with whether
the stream was closed. -/
structure WrittenStream where
  chunks : List (List Nat)
  closed : Bool
deriving DecidableEq, Repr

/-- Embedding of readStreamToUint8Array (cbc.ts lines 112-138 and gcm.ts
lines 130-156): drains the source and concatenates all chunks in arrival
order into one buffer. -/
def readStreamToUint8Array (src : List (List Nat)) : List Nat :=
  concatChunks src

/-- Embedding of the CBC encryptStream closure (cbc.ts lines 212-229):
drains the source, encrypts the combined buffer, writes the single
result chunk and closes the destination. -/
def cbcEncryptStream (E : List Nat → List Nat → List Nat) (c : CBCCipher)
    (src : List (List Nat)) : WrittenStream :=
  ⟨[cbcEncrypt E c (readStreamToUint8Array src)], true⟩

/-- Embedding of the CBC decryptStream closure (cbc.ts lines 234-251):
drains the source, decrypts the combined buffer (propagating any decrypt
error before the destination is touched), writes the single result chunk
and closes the destination. -/
def cbcDecryptStream (D : List Nat → List Nat → List Nat) (c : CBCCipher)
    (src : List (List Nat)) : Except WalrusErr WrittenStream :=
  match cbcDecrypt D c (readStreamToUint8Array src) with
  | Except.ok d => Except.ok ⟨[d], true⟩
  | Except.error e => Except.error e

/-- Embedding of the GCM encryptStream closure (gcm.ts lines 163-180),
with the random IV explicit as in gcmEncrypt. -/
def gcmEncryptStream (prim : GCMPrim) (c : GCMCipher) (iv : List Nat)
    (src : List (List Nat)) : WrittenStream :=
  ⟨[gcmEncrypt prim c iv (readStreamToUint8Array src)], true⟩

/-- Embedding of the GCM decryptStream closure (gcm.ts lines 187-204). -/
def gcmDecryptStream (prim : GCMPrim) (c : GCMCipher)
    (src : List (List Nat)) : Except WalrusErr WrittenStream :=
  match gcmDecrypt prim c (readStreamToUint8Array src) with
  | Except.ok d => Except.ok ⟨[d], true⟩
  | Except.error e => Except.error e

/-- Result of the cipher factory: one of the two strategies. -/
inductive Cipher where
  | gcm : GCMCipher → Cipher
  | cbc : CBCCipher → Cipher
deriving DecidableEq, Repr

/-- Embedding of createCipher (encryption/index.ts lines 11-31): given a
key that is a byte sequence, dispatches on the suite string: AES256GCM
constructs the GCM strategy from the key only (any supplied iv is simply
never read), AES256CBC first requires an iv to be present and then
constructs the CBC strategy, and any other suite value fails with a
ValidationError whose message names the unsupported suite. -/
def createCipher (key : List Nat) (suite : String) (iv : Option (List Nat)) :
    Except WalrusErr Cipher :=
  if suite = "AES256GCM" then
    match createGCMCipher key with
    | Except.ok c => Except.ok (Cipher.gcm c)
    | Except.error e => Except.error e
  else if suite = "AES256CBC" then
    match iv with
    | none => Except.error (WalrusErr.validation
        "Initialization vector (IV) is required for AES-CBC mode")
    | some _ =>
      match createCBCCipher key iv with
      | Except.ok c => Except.ok (Cipher.cbc c)
      | Except.error e => Except.error e
  else Except.error (WalrusErr.validation
    (String.append "Unsupported cipher suite: " suite))

/-! Helper lemmas about the embedded operations. -/

theorem concatChunks_nil : concatChunks [] = [] := rfl

theorem concatChunks_cons (c : List Nat) (cs : List (List Nat)) :
    concatChunks (c :: cs) = c ++ concatChunks cs := rfl

theorem chunksB_nil : chunksB [] = [] := by
  rw [chunksB]
  simp

theorem chunksB_of_ne_nil (l : List Nat) (h : l ≠ []) :
    chunksB l = l.take 16 :: chunksB (l.drop 16) := by
  rw [chunksB, dif_neg h]

theorem chunksB_append16 (c l : List Nat) (hc : c.length = 16) :
    chunksB (c ++ l) = c :: chunksB l := by
  have hcne : c ≠ [] := by
    intro he
    rw [he] at hc
    simp at hc
  have hne : c ++ l ≠ [] := by
    intro he
    exact hcne (List.append_eq_nil.mp he).1
  rw [chunksB_of_ne_nil _ hne]
  rw [show (16 : Nat) = c.length from hc.symm]
  rw [List.take_left, List.drop_left]

theorem concatChunks_chunksB (l : List Nat) : concatChunks (chunksB l) = l := by
  by_cases h : l = []
  · subst h
    rw [chunksB_nil]
    rfl
  · rw [chunksB_of_ne_nil l h, concatChunks_cons,
      concatChunks_chunksB (l.drop 16), List.take_append_drop]
termination_by l.length
decreasing_by
  simp only [List.length_drop]
  have h0 : 0 < l.length := List.length_pos.mpr h
  omega

theorem chunksB_concatChunks (cs : List (List Nat))
    (h : ∀ c ∈ cs, c.length = 16) : chunksB (concatChunks cs) = cs := by
  induction cs with
  | nil => exact chunksB_nil
  | cons c cs ih =>
    rw [concatChunks_cons, chunksB_append16 c _ (h c (by simp))]
    rw [ih (fun x hx => h x (by simp [hx]))]

theorem concatChunks_length16 (cs : List (List Nat))
    (h : ∀ c ∈ cs, c.length = 16) :
    (concatChunks cs).length = 16 * cs.length := by
  induction cs with
  | nil => rfl
  | cons c cs ih =>
    rw [concatChunks_cons]
    simp only [List.length_append, List.length_cons]
    rw [h c (by simp), ih (fun x hx => h x (by simp [hx]))]
    ring

theorem xorBytes_length (a b : List Nat) :
    (xorBytes a b).length = min a.length b.length :=
  List.length_zipWith _ a b

theorem xorBytes_cancel (a b : List Nat) (h : a.length ≤ b.length) :
    xorBytes (xorBytes a b) b = a := by
  induction a generalizing b with
  | nil => simp [xorBytes]
  | cons x xs ih =>
    cases b with
    | nil => simp at h
    | cons y ys =>
      simp only [xorBytes, List.zipWith_cons_cons, List.length_cons,
        List.cons.injEq] at *
      exact ⟨by rw [Nat.xor_assoc, Nat.xor_self, Nat.xor_zero],
        ih ys (by omega)⟩

theorem cbcEnc_len16 (Ek : List Nat → List Nat)
    (hE : ∀ b, b.length = 16 → (Ek b).length = 16)
    (bs : List (List Nat)) (prev : List Nat)
    (hbs : ∀ b ∈ bs, b.length = 16) (hprev : prev.length = 16) :
    ∀ c ∈ cbcEnc Ek prev bs, c.length = 16 := by
  induction bs generalizing prev with
  | nil => intro c hc; simp [cbcEnc] at hc
  | cons b bs ih =>
    intro c hc
    have hb : b.length = 16 := hbs b (by simp)
    have hxl : (xorBytes b prev).length = 16 := by
      rw [xorBytes_length, hb, hprev]; simp
    have hcl : (Ek (xorBytes b prev)).length = 16 := hE _ hxl
    simp only [cbcEnc, List.mem_cons] at hc
    rcases hc with hc | hc
    · rw [hc]; exact hcl
    · exact ih _ (fun x hx => hbs x (by simp [hx])) hcl c hc

theorem cbcDec_cbcEnc (Ek Dk : List Nat → List Nat)
    (hE : ∀ b, b.length = 16 → (Ek b).length = 16)
    (hD : ∀ b, b.length = 16 → Dk (Ek b) = b)
    (bs : List (List Nat)) (prev : List Nat)
    (hbs : ∀ b ∈ bs, b.length = 16) (hprev : prev.length = 16) :
    cbcDec Dk prev (cbcEnc Ek prev bs) = bs := by
  induction bs generalizing prev with
  | nil => rfl
  | cons b bs ih =>
    have hb : b.length = 16 := hbs b (by simp)
    have hxl : (xorBytes b prev).length = 16 := by
      rw [xorBytes_length, hb, hprev]; simp
    have hcl : (Ek (xorBytes b prev)).length = 16 := hE _ hxl
    simp only [cbcEnc, cbcDec]
    rw [hD _ hxl, xorBytes_cancel b prev (by omega)]
    rw [ih _ (fun x hx => hbs x (by simp [hx])) hcl]

theorem cbcEnc_length (Ek : List Nat → List Nat) (bs : List (List Nat))
    (prev : List Nat) : (cbcEnc Ek prev bs).length = bs.length := by
  induction bs generalizing prev with
  | nil => rfl
  | cons b bs ih => simp only [cbcEnc, List.length_cons, ih]

theorem chunksB_len16 (l : List Nat) (hl : l.length % 16 = 0) :
    ∀ c ∈ chunksB l, c.length = 16 := by
  by_cases h : l = []
  · subst h
    rw [chunksB_nil]
    simp
  · rw [chunksB_of_ne_nil l h]
    intro c hc
    have hpos : 0 < l.length := List.length_pos.mpr h
    have hlen : 16 ≤ l.length := by omega
    rcases List.mem_cons.mp hc with hc | hc
    · rw [hc, List.length_take]
      omega
    · exact chunksB_len16 (l.drop 16)
        (by simp only [List.length_drop]; omega) c hc
termination_by l.length
decreasing_by
  simp only [List.length_drop]
  omega

theorem padData_def (data : List Nat) :
    padData data =
      data ++ List.replicate (16 - data.length % 16) (16 - data.length % 16) := rfl

theorem padData_length (data : List Nat) :
    (padData data).length = data.length + (16 - data.length % 16) := by
  rw [padData_def]
  simp

theorem padData_mod (data : List Nat) : (padData data).length % 16 = 0 := by
  rw [padData_length]
  omega

theorem padData_ne_nil (data : List Nat) : padData data ≠ [] := by
  intro h
  have := congrArg List.length h
  rw [padData_length] at this
  simp at this
  omega

theorem append_replicate_getLastD (l : List Nat) (p : Nat) (hp : 1 ≤ p) :
    (l ++ List.replicate p p).getLastD 0 = p := by
  rw [List.getLastD_eq_getLast?, List.getLast?_append, List.getLast?_replicate]
  rw [if_neg (by omega)]
  rfl

theorem append_replicate_sub (l : List Nat) (p : Nat) :
    (l ++ List.replicate p p).length - p = l.length := by
  simp

theorem append_replicate_drop (l : List Nat) (p : Nat) :
    (l ++ List.replicate p p).drop ((l ++ List.replicate p p).length - p) =
      List.replicate p p := by
  rw [append_replicate_sub, List.drop_left]

theorem append_replicate_take (l : List Nat) (p : Nat) :
    (l ++ List.replicate p p).take ((l ++ List.replicate p p).length - p) = l := by
  rw [append_replicate_sub, List.take_left]

theorem subtleUnpad_padData (l : List Nat) : subtleUnpad (padData l) = some l := by
  have hp1 : 1 ≤ 16 - l.length % 16 := by omega
  have hp16 : 16 - l.length % 16 ≤ 16 := by omega
  rw [subtleUnpad, padData_def]
  rw [append_replicate_getLastD l _ hp1]
  rw [if_pos]
  · rw [append_replicate_take]
  · refine ⟨hp1, hp16, ?_, ?_⟩
    · simp only [List.length_append, List.length_replicate]
      omega
    · rw [append_replicate_drop]
      simp [List.all_eq_true, List.mem_replicate]

theorem unpadData_padData (l : List Nat) : unpadData (padData l) = Except.ok l := by
  have hp1 : 1 ≤ 16 - l.length % 16 := by omega
  have hp16 : 16 - l.length % 16 ≤ 16 := by omega
  have hne : (padData l).length ≠ 0 := by
    rw [padData_length]
    omega
  rw [unpadData, if_neg hne, padData_def]
  rw [append_replicate_getLastD l _ hp1]
  rw [if_neg (by rw [CBC_BLOCK_SIZE]; omega)]
  rw [if_pos]
  · rw [append_replicate_take]
  · refine ⟨?_, ?_⟩
    · simp only [List.length_append, List.length_replicate]
      omega
    · rw [append_replicate_drop]
      simp [List.all_eq_true, List.mem_replicate]

theorem subtleCBC_roundtrip (Ek Dk : List Nat → List Nat)
    (hE : ∀ b, b.length = 16 → (Ek b).length = 16)
    (hD : ∀ b, b.length = 16 → Dk (Ek b) = b)
    (iv input : List Nat) (hiv : iv.length = 16) :
    subtleDecryptCBC Dk iv (subtleEncryptCBC Ek iv input) = some input := by
  have hP16 : ∀ c ∈ chunksB (padData input), c.length = 16 :=
    chunksB_len16 _ (padData_mod input)
  have hC16 : ∀ c ∈ cbcEnc Ek iv (chunksB (padData input)), c.length = 16 :=
    cbcEnc_len16 Ek hE _ iv hP16 hiv
  have hctlen : (subtleEncryptCBC Ek iv input).length =
      16 * (chunksB (padData input)).length := by
    rw [subtleEncryptCBC, concatChunks_length16 _ hC16, cbcEnc_length]
  have hPne : chunksB (padData input) ≠ [] := by
    rw [chunksB_of_ne_nil _ (padData_ne_nil input)]
    simp
  have hPpos : 0 < (chunksB (padData input)).length := List.length_pos.mpr hPne
  rw [subtleDecryptCBC, if_neg]
  · rw [subtleEncryptCBC, chunksB_concatChunks _ hC16,
      cbcDec_cbcEnc Ek Dk hE hD _ iv hP16 hiv, concatChunks_chunksB,
      subtleUnpad_padData]
  · rw [hctlen]
    push_neg
    constructor
    · omega
    · omega

theorem subtleGCM_roundtrip (prim : GCMPrim) (key iv data : List Nat)
    (hks : ∀ k v n, (prim.ks k v n).length = n)
    (htag : ∀ k v ct, (prim.tag k v ct).length = 16) :
    subtleDecryptGCM prim key iv (subtleEncryptGCM prim key iv data) = some data := by
  have hctlen : (xorBytes data (prim.ks key iv data.length)).length = data.length := by
    rw [xorBytes_length, hks]
    simp
  rw [subtleEncryptGCM, subtleDecryptGCM]
  simp only
  rw [if_neg (by simp [htag])]
  have hsub : (xorBytes data (prim.ks key iv data.length) ++
      prim.tag key iv (xorBytes data (prim.ks key iv data.length))).length - 16 =
      (xorBytes data (prim.ks key iv data.length)).length := by
    simp [htag]
  rw [hsub, List.take_left, List.drop_left, if_pos rfl, hctlen]
  rw [xorBytes_cancel data _ (by rw [hks])]

theorem container_take_magic (rest : List Nat) :
    (MAGIC_BYTES ++ rest).take MAGIC_BYTES.length = MAGIC_BYTES :=
  List.take_left _ _

theorem container_drop_magic (rest : List Nat) :
    (MAGIC_BYTES ++ rest).drop MAGIC_BYTES.length = rest :=
  List.drop_left _ _

theorem container_iv (iv ct : List Nat) (n : Nat) (hiv : iv.length = n) :
    ((MAGIC_BYTES ++ (iv ++ ct)).drop MAGIC_BYTES.length).take n = iv := by
  rw [container_drop_magic, List.take_left' hiv]

theorem container_ct (iv ct : List Nat) (n : Nat) (hiv : iv.length = n) :
    (MAGIC_BYTES ++ (iv ++ ct)).drop (MAGIC_BYTES.length + n) = ct := by
  rw [← List.append_assoc]
  exact List.drop_left' (by simp [hiv, MAGIC_BYTES]; omega)

theorem createCBCCipher_ok (key iv : List Nat) (c : CBCCipher)
    (h : createCBCCipher key (some iv) = Except.ok c) :
    c.key = key ∧ c.iv = iv ∧ iv.length = 16 := by
  rw [createCBCCipher] at h
  cases hv : validateAesKey key with
  | error e => rw [hv] at h; cases h
  | ok u =>
    rw [hv] at h
    by_cases hl : iv.length = CBC_IV_LENGTH
    · rw [if_pos hl] at h
      cases h
      exact ⟨rfl, rfl, hl⟩
    · rw [if_neg hl] at h
      cases h

theorem createGCMCipher_ok (key : List Nat) (c : GCMCipher)
    (h : createGCMCipher key = Except.ok c) : c = ⟨key⟩ := by
  rw [createGCMCipher] at h
  cases hv : validateAesKey key with
  | error e => rw [hv] at h; cases h
  | ok u => rw [hv] at h; cases h; rfl

/-- C2: for the block-cipher (CBC) suite, for every key of length 32 (any
key accepted by the constructor), every IV of length 16 and every
plaintext, decrypting the encryption of the plaintext on the same cipher
instance returns the plaintext, for every block permutation E with
inverse D under that key. -/
theorem cbc_roundtrip_claim (E D : List Nat → List Nat → List Nat)
    (key iv data : List Nat) (c : CBCCipher)
    (hc : createCBCCipher key (some iv) = Except.ok c)
    (hkey : key.length = 32)
    (hE : ∀ b, b.length = 16 → (E key b).length = 16)
    (hD : ∀ b, b.length = 16 → D key (E key b) = b) :
    cbcDecrypt D c (cbcEncrypt E c data) = Except.ok data := by
  obtain ⟨hk, hivv, hlen⟩ := createCBCCipher_ok key iv c hc
  have hclen : c.iv.length = 16 := by rw [hivv]; exact hlen
  rw [cbcEncrypt, cbcDecrypt, List.append_assoc]
  rw [if_neg (by simp [MAGIC_BYTES, CBC_IV_LENGTH, hclen])]
  rw [if_pos (container_take_magic _)]
  simp only
  rw [container_iv _ _ CBC_IV_LENGTH hclen, container_ct _ _ CBC_IV_LENGTH hclen]
  rw [hk, subtleCBC_roundtrip (E key) (D key) hE hD c.iv (padData data) hclen]
  simp only [unpadData_padData]

/-- Identity keyed block permutation, a concrete instance of the
abstract AES block cipher used to witness the universally quantified
theorems. -/
def idBlockCipher : List Nat → List Nat → List Nat := fun _ b => b

theorem cbc_roundtrip_claim_witness :
    createCBCCipher (List.replicate 32 0) (some (List.replicate 16 0)) =
      Except.ok ⟨List.replicate 32 0, List.replicate 16 0⟩ ∧
    cbcDecrypt idBlockCipher ⟨List.replicate 32 0, List.replicate 16 0⟩
      (cbcEncrypt idBlockCipher ⟨List.replicate 32 0, List.replicate 16 0⟩
        [1, 2, 3]) = Except.ok [1, 2, 3] :=
  ⟨by decide,
    cbc_roundtrip_claim idBlockCipher idBlockCipher (List.replicate 32 0)
      (List.replicate 16 0) [1, 2, 3] ⟨List.replicate 32 0, List.replicate 16 0⟩
      (by decide) (by decide) (fun b h => h) (fun b h => rfl)⟩

/-- C3: for the stream-cipher (GCM) suite, for every key of length 32 and
every plaintext (including the empty one), decrypting the encryption of
the plaintext on the same instance returns the plaintext, for every
value the 12 random IV bytes generated inside encrypt may take, and for
every keystream and tag primitive of the correct lengths. -/
theorem gcm_roundtrip_claim (prim : GCMPrim) (key iv data : List Nat)
    (c : GCMCipher)
    (hc : createGCMCipher key = Except.ok c)
    (hkey : key.length = 32) (hiv : iv.length = GCM_IV_LENGTH)
    (hks : ∀ k v n, (prim.ks k v n).length = n)
    (htag : ∀ k v ct, (prim.tag k v ct).length = 16) :
    gcmDecrypt prim c (gcmEncrypt prim c iv data) = Except.ok data := by
  have hck : c = ⟨key⟩ := createGCMCipher_ok key c hc
  subst hck
  rw [gcmEncrypt, gcmDecrypt, List.append_assoc]
  rw [if_pos (container_take_magic _)]
  simp only
  rw [container_iv _ _ GCM_IV_LENGTH hiv, container_ct _ _ GCM_IV_LENGTH hiv]
  rw [subtleGCM_roundtrip prim key iv data hks htag]

/-- Trivial keystream and tag primitive, a concrete instance of the
abstract AES-GCM primitive used to witness the universally quantified
theorems: the keystream is all zero bytes and the tag is 16 zero
bytes. -/
def trivGCMPrim : GCMPrim :=
  ⟨fun _ _ n => List.replicate n 0, fun _ _ _ => List.replicate 16 0⟩

theorem gcm_roundtrip_claim_witness :
    createGCMCipher (List.replicate 32 1) =
      Except.ok (⟨List.replicate 32 1⟩ : GCMCipher) ∧
    gcmDecrypt trivGCMPrim ⟨List.replicate 32 1⟩
      (gcmEncrypt trivGCMPrim ⟨List.replicate 32 1⟩ (List.replicate 12 0) []) =
      Except.ok [] :=
  ⟨by decide,
    gcm_roundtrip_claim trivGCMPrim (List.replicate 32 1) (List.replicate 12 0)
      [] ⟨List.replicate 32 1⟩ (by decide) (by decide) (by decide)
      (fun k v n => List.length_replicate n 0)
      (fun k v ct => List.length_replicate 16 0)⟩

/-- C5: the block-cipher padData pads every plaintext with PKCS-7:
for length n it appends padLen = 16 - (n mod 16) bytes each holding the
value padLen (a full 16-byte block when n is a multiple of 16), and the
padded length is always a positive multiple of 16. -/
theorem padData_claim (data : List Nat) :
    padData data =
      data ++ List.replicate (16 - data.length % 16) (16 - data.length % 16) ∧
    (data.length % 16 = 0 → padData data = data ++ List.replicate 16 16) ∧
    1 ≤ 16 - data.length % 16 ∧ 16 - data.length % 16 ≤ 16 ∧
    (padData data).length = data.length + (16 - data.length % 16) ∧
    (padData data).length % 16 = 0 ∧ 0 < (padData data).length := by
  refine ⟨padData_def data, ?_, by omega, by omega, padData_length data,
    padData_mod data, ?_⟩
  · intro h
    rw [padData_def, h]
  · rw [padData_length]
    omega

theorem padData_claim_witness :
    padData (List.replicate 16 5) = List.replicate 16 5 ++ List.replicate 16 16 :=
  (padData_claim (List.replicate 16 5)).2.1 (by decide)

/-- C6: unpadData on a nonempty buffer reads the last byte as padLen,
fails with a PaddingError when padLen is 0 or greater than 16; when
padLen is in range and at most the buffer length, it fails with a
PaddingError when any of the last padLen bytes differs from padLen and
otherwise returns the buffer with its last padLen bytes removed. -/
theorem unpadData_claim (data : List Nat) (hne : 0 < data.length) :
    (data.getLastD 0 = 0 ∨ 16 < data.getLastD 0 →
      unpadData data = Except.error (WalrusErr.padding "Invalid padding length")) ∧
    (1 ≤ data.getLastD 0 → data.getLastD 0 ≤ 16 → data.getLastD 0 ≤ data.length →
      (((data.drop (data.length - data.getLastD 0)).all
          (fun b => b == data.getLastD 0)) = true →
        unpadData data = Except.ok (data.take (data.length - data.getLastD 0))) ∧
      (((data.drop (data.length - data.getLastD 0)).all
          (fun b => b == data.getLastD 0)) = false →
        unpadData data = Except.error (WalrusErr.padding "Invalid padding"))) := by
  have hne0 : data.length ≠ 0 := by omega
  constructor
  · intro h
    rw [unpadData, if_neg hne0, if_pos]
    exact h
  · intro h1 h2 h3
    have hno : ¬ (data.getLastD 0 = 0 ∨ CBC_BLOCK_SIZE < data.getLastD 0) := by
      simp only [CBC_BLOCK_SIZE]
      push_neg
      exact ⟨by omega, by omega⟩
    constructor
    · intro hall
      rw [unpadData, if_neg hne0, if_neg hno, if_pos ⟨h3, hall⟩]
    · intro hall
      rw [unpadData, if_neg hne0, if_neg hno, if_neg]
      intro hcon
      rw [hall] at hcon
      cases hcon.2

theorem unpadData_claim_witness : unpadData [7, 2, 2] = Except.ok [7] :=
  ((unpadData_claim [7, 2, 2] (by decide)).2 (by decide) (by decide)
    (by decide)).1 (by decide)

/-- C7: the block-cipher decrypt uses the IV embedded in the container
(bytes 3..18), not the instance IV: two instances with the same key and
different configured IVs decrypt every buffer identically, and an
instance decrypts a container produced by an instance with the same key
but a different configured IV back to the original plaintext. -/
theorem cbc_embedded_iv_claim (E D : List Nat → List Nat → List Nat)
    (key iv₁ iv₂ : List Nat) (c₁ c₂ : CBCCipher)
    (h₁ : createCBCCipher key (some iv₁) = Except.ok c₁)
    (h₂ : createCBCCipher key (some iv₂) = Except.ok c₂)
    (hE : ∀ b, b.length = 16 → (E key b).length = 16)
    (hD : ∀ b, b.length = 16 → D key (E key b) = b) :
    (∀ data, cbcDecrypt D c₁ data = cbcDecrypt D c₂ data) ∧
    (∀ ptData, cbcDecrypt D c₂ (cbcEncrypt E c₁ ptData) = Except.ok ptData) := by
  obtain ⟨hk1, hiv1, hl1⟩ := createCBCCipher_ok _ _ _ h₁
  obtain ⟨hk2, hiv2, hl2⟩ := createCBCCipher_ok _ _ _ h₂
  have hclen1 : c₁.iv.length = 16 := by rw [hiv1]; exact hl1
  constructor
  · intro data
    rw [cbcDecrypt, cbcDecrypt, hk1, hk2]
  · intro ptData
    rw [cbcEncrypt, cbcDecrypt, List.append_assoc]
    rw [if_neg (by simp [MAGIC_BYTES, CBC_IV_LENGTH, hclen1])]
    rw [if_pos (container_take_magic _)]
    simp only
    rw [container_iv _ _ CBC_IV_LENGTH hclen1, container_ct _ _ CBC_IV_LENGTH hclen1]
    rw [hk1, hk2,
      subtleCBC_roundtrip (E key) (D key) hE hD c₁.iv (padData ptData) hclen1]
    simp only [unpadData_padData]

theorem cbc_embedded_iv_claim_witness :
    cbcDecrypt idBlockCipher ⟨List.replicate 32 0, List.replicate 16 7⟩
      (cbcEncrypt idBlockCipher ⟨List.replicate 32 0, List.replicate 16 0⟩ [9]) =
      Except.ok [9] :=
  (cbc_embedded_iv_claim idBlockCipher idBlockCipher (List.replicate 32 0)
    (List.replicate 16 0) (List.replicate 16 7)
    ⟨List.replicate 32 0, List.replicate 16 0⟩
    ⟨List.replicate 32 0, List.replicate 16 7⟩
    (by decide) (by decide) (fun b h => h) (fun b h => rfl)).2 [9]

/-- C8: the factory createCipher, for every key that is a byte sequence:
with the stream-cipher identifier it constructs the GCM strategy and
ignores any supplied iv; with the block-cipher identifier and no iv it
fails with a ValidationError; with any other suite value it fails with a
ValidationError whose message names the unsupported suite. -/
theorem createCipher_claim (key : List Nat) (suite : String)
    (iv iv' : Option (List Nat)) :
    (createCipher key "AES256GCM" iv = createCipher key "AES256GCM" iv') ∧
    (∀ g, createGCMCipher key = Except.ok g →
      createCipher key "AES256GCM" iv = Except.ok (Cipher.gcm g)) ∧
    (createCipher key "AES256CBC" none =
      Except.error (WalrusErr.validation
        "Initialization vector (IV) is required for AES-CBC mode")) ∧
    (suite ≠ "AES256GCM" → suite ≠ "AES256CBC" →
      createCipher key suite iv =
        Except.error (WalrusErr.validation
          (String.append "Unsupported cipher suite: " suite))) := by
  refine ⟨?_, ?_, ?_, ?_⟩
  · rw [createCipher.eq_def, createCipher.eq_def, if_pos rfl, if_pos rfl]
  · intro g hg
    rw [createCipher.eq_def, if_pos rfl, hg]
  · rw [createCipher.eq_def, if_neg (by decide), if_pos rfl]
  · intro h1 h2
    rw [createCipher.eq_def, if_neg h1, if_neg h2]

theorem createCipher_claim_witness :
    createCipher [] "FOO" none =
      Except.error (WalrusErr.validation
        (String.append "Unsupported cipher suite: " "FOO")) :=
  (createCipher_claim [] "FOO" none none).2.2.2 (by decide) (by decide)

theorem subtleEncryptCBC_length (Ek : List Nat → List Nat) (iv input : List Nat)
    (hE : ∀ b, b.length = 16 → (Ek b).length = 16) (hiv : iv.length = 16) :
    (subtleEncryptCBC Ek iv input).length = (padData input).length := by
  have hP16 : ∀ c ∈ chunksB (padData input), c.length = 16 :=
    chunksB_len16 _ (padData_mod input)
  have hC16 : ∀ c ∈ cbcEnc Ek iv (chunksB (padData input)), c.length = 16 :=
    cbcEnc_len16 Ek hE _ iv hP16 hiv
  have hpad : (padData input).length = 16 * (chunksB (padData input)).length := by
    have h := concatChunks_length16 (chunksB (padData input)) hP16
    rw [concatChunks_chunksB] at h
    exact h
  rw [subtleEncryptCBC, concatChunks_length16 _ hC16, cbcEnc_length, hpad]

theorem gcmEncrypt_length (prim : GCMPrim) (g : GCMCipher) (iv data : List Nat)
    (hks : ∀ k v n, (prim.ks k v n).length = n)
    (htag : ∀ k v ct, (prim.tag k v ct).length = 16) :
    (gcmEncrypt prim g iv data).length = 3 + iv.length + data.length + 16 := by
  rw [gcmEncrypt, subtleEncryptGCM]
  simp only [List.length_append, xorBytes_length, hks, htag, MAGIC_BYTES]
  simp
  omega

/-- C9: for both suites, the container produced by encrypt is strictly
longer than the plaintext: for the block-cipher suite because of the
3-byte magic, the 16-byte IV and the padding, and for the stream-cipher
suite because of the 3-byte magic, the IV and the 16-byte tag. -/
theorem encrypt_expansion_claim (E : List Nat → List Nat → List Nat)
    (c : CBCCipher) (data : List Nat)
    (hE : ∀ b, b.length = 16 → (E c.key b).length = 16)
    (hiv : c.iv.length = 16)
    (prim : GCMPrim) (g : GCMCipher) (giv gdata : List Nat)
    (hks : ∀ k v n, (prim.ks k v n).length = n)
    (htag : ∀ k v ct, (prim.tag k v ct).length = 16) :
    data.length < (cbcEncrypt E c data).length ∧
    gdata.length < (gcmEncrypt prim g giv gdata).length := by
  constructor
  · rw [cbcEncrypt]
    simp only [List.length_append]
    rw [subtleEncryptCBC_length (E c.key) c.iv (padData data) hE hiv]
    rw [padData_length, padData_length]
    omega
  · rw [gcmEncrypt_length prim g giv gdata hks htag]
    omega

theorem encrypt_expansion_claim_witness :
    ([4, 5] : List Nat).length <
      (cbcEncrypt idBlockCipher ⟨List.replicate 32 0, List.replicate 16 0⟩
        [4, 5]).length ∧
    ([] : List Nat).length <
      (gcmEncrypt trivGCMPrim ⟨List.replicate 32 1⟩ (List.replicate 12 0)
        []).length :=
  encrypt_expansion_claim idBlockCipher ⟨List.replicate 32 0, List.replicate 16 0⟩
    [4, 5] (fun b h => h) (by decide) trivGCMPrim ⟨List.replicate 32 1⟩
    (List.replicate 12 0) [] (fun k v n => List.length_replicate n 0)
    (fun k v ct => List.length_replicate 16 0)

/-- C10: for the stream-cipher (GCM) suite, the container length is
exactly the plaintext length plus 31 bytes: 3 magic bytes, the 12-byte
IV, the ciphertext of the plaintext length, and the 16-byte tag appended
by the primitive. -/
theorem gcm_encrypt_length_claim (prim : GCMPrim) (g : GCMCipher)
    (iv data : List Nat) (hiv : iv.length = GCM_IV_LENGTH)
    (hks : ∀ k v n, (prim.ks k v n).length = n)
    (htag : ∀ k v ct, (prim.tag k v ct).length = 16) :
    (gcmEncrypt prim g iv data).length = data.length + 31 := by
  rw [gcmEncrypt_length prim g iv data hks htag, hiv]
  rw [GCM_IV_LENGTH]
  omega

theorem gcm_encrypt_length_claim_witness :
    (gcmEncrypt trivGCMPrim ⟨List.replicate 32 1⟩ (List.replicate 12 0)
      [1, 2, 3, 4, 5]).length = ([1, 2, 3, 4, 5] : List Nat).length + 31 :=
  gcm_encrypt_length_claim trivGCMPrim ⟨List.replicate 32 1⟩
    (List.replicate 12 0) [1, 2, 3, 4, 5] (by decide)
    (fun k v n => List.length_replicate n 0)
    (fun k v ct => List.length_replicate 16 0)

/-- C4: for both suites, encryptStream writes to the destination exactly
one chunk, equal to the whole-buffer encrypt of the in-order
concatenation of the source chunks, and closes the destination;
decryptStream does the same with the whole-buffer decrypt whenever it
succeeds; and piping a plaintext through encryptStream then
decryptStream yields the original plaintext, the same result as the
whole-buffer path. -/
theorem streaming_claim (E D : List Nat → List Nat → List Nat)
    (key iv : List Nat) (c : CBCCipher)
    (hc : createCBCCipher key (some iv) = Except.ok c)
    (hkey : key.length = 32)
    (hE : ∀ b, b.length = 16 → (E key b).length = 16)
    (hD : ∀ b, b.length = 16 → D key (E key b) = b)
    (prim : GCMPrim) (gkey giv : List Nat) (g : GCMCipher)
    (hg : createGCMCipher gkey = Except.ok g)
    (hgkey : gkey.length = 32) (hgiv : giv.length = GCM_IV_LENGTH)
    (hks : ∀ k v n, (prim.ks k v n).length = n)
    (htag : ∀ k v ct, (prim.tag k v ct).length = 16)
    (src csrc : List (List Nat)) :
    (cbcEncryptStream E c src =
      ⟨[cbcEncrypt E c (concatChunks src)], true⟩) ∧
    (∀ d, cbcDecrypt D c (concatChunks csrc) = Except.ok d →
      cbcDecryptStream D c csrc = Except.ok ⟨[d], true⟩) ∧
    (cbcDecryptStream D c (cbcEncryptStream E c src).chunks =
      Except.ok ⟨[concatChunks src], true⟩) ∧
    (gcmEncryptStream prim g giv src =
      ⟨[gcmEncrypt prim g giv (concatChunks src)], true⟩) ∧
    (∀ d, gcmDecrypt prim g (concatChunks csrc) = Except.ok d →
      gcmDecryptStream prim g csrc = Except.ok ⟨[d], true⟩) ∧
    (gcmDecryptStream prim g (gcmEncryptStream prim g giv src).chunks =
      Except.ok ⟨[concatChunks src], true⟩) := by
  have hone : ∀ x : List Nat, concatChunks [x] = x := by
    intro x
    rw [concatChunks_cons, concatChunks_nil, List.append_nil]
  refine ⟨rfl, ?_, ?_, rfl, ?_, ?_⟩
  · intro d hd
    rw [cbcDecryptStream, readStreamToUint8Array, hd]
  · rw [cbcEncryptStream, cbcDecryptStream]
    simp only [readStreamToUint8Array]
    rw [hone, cbc_roundtrip_claim E D key iv (concatChunks src) c hc hkey hE hD]
  · intro d hd
    rw [gcmDecryptStream, readStreamToUint8Array, hd]
  · rw [gcmEncryptStream, gcmDecryptStream]
    simp only [readStreamToUint8Array]
    rw [hone,
      gcm_roundtrip_claim prim gkey giv (concatChunks src) g hg hgkey hgiv hks htag]

theorem streaming_claim_witness :
    cbcDecryptStream idBlockCipher ⟨List.replicate 32 0, List.replicate 16 0⟩
      (cbcEncryptStream idBlockCipher ⟨List.replicate 32 0, List.replicate 16 0⟩
        [[1], [2, 3]]).chunks =
      Except.ok ⟨[concatChunks [[1], [2, 3]]], true⟩ ∧
    gcmDecryptStream trivGCMPrim ⟨List.replicate 32 1⟩
      (gcmEncryptStream trivGCMPrim ⟨List.replicate 32 1⟩ (List.replicate 12 0)
        [[1], [2, 3]]).chunks =
      Except.ok ⟨[concatChunks [[1], [2, 3]]], true⟩ :=
  ⟨(streaming_claim idBlockCipher idBlockCipher (List.replicate 32 0)
      (List.replicate 16 0) ⟨List.replicate 32 0, List.replicate 16 0⟩
      (by decide) (by decide) (fun b h => h) (fun b h => rfl) trivGCMPrim
      (List.replicate 32 1) (List.replicate 12 0) ⟨List.replicate 32 1⟩
      (by decide) (by decide) (by decide)
      (fun k v n => List.length_replicate n 0)
      (fun k v ct => List.length_replicate 16 0) [[1], [2, 3]] []).2.2.1,
   (streaming_claim idBlockCipher idBlockCipher (List.replicate 32 0)
      (List.replicate 16 0) ⟨List.replicate 32 0, List.replicate 16 0⟩
      (by decide) (by decide) (fun b h => h) (fun b h => rfl) trivGCMPrim
      (List.replicate 32 1) (List.replicate 12 0) ⟨List.replicate 32 1⟩
      (by decide) (by decide) (by decide)
      (fun k v n => List.length_replicate n 0)
      (fun k v ct => List.length_replicate 16 0) [[1], [2, 3]] []).2.2.2.2.2⟩

/-- C1 counterexample: a stream-cipher (GCM) decrypt input of length 10
(shorter than 3 + 12 = 15) whose first three bytes equal the magic
constant passes the magic comparison (the only check the GCM decrypt
performs), reaches the AES-GCM decrypt primitive and fails with the
opaque CryptoError, not with a FormatError, so short inputs do not
uniformly fail with a FormatError and not all failures happen before a
primitive call. -/
theorem short_input_claim_counterexample :
    (MAGIC_BYTES ++ List.replicate 7 0).length = 10 ∧
    gcmDecrypt trivGCMPrim ⟨List.replicate 32 1⟩
      (MAGIC_BYTES ++ List.replicate 7 0) =
      Except.error (WalrusErr.crypto
        "Decryption failed: invalid key or corrupted data") ∧
    gcmDecryptOps (MAGIC_BYTES ++ List.replicate 7 0) =
      [CryptoOp.keyImport, CryptoOp.primitive] := by
  decide

/-- C1 amended: the block-cipher decrypt rejects every input shorter
than 3 + 16 = 19 bytes with a FormatError without invoking the cipher
primitive (though after the key import that ensureKey performs first on
a fresh instance); the stream-cipher decrypt has no length check: it
rejects an input with a FormatError, again without a primitive call but
after the key import, exactly when the first three bytes differ from the
magic constant, while a short input starting with the magic bytes
reaches the primitive and fails with a CryptoError; in particular a
10-byte all-zero input fails with a FormatError in both suites. -/
theorem short_input_claim_amended (D : List Nat → List Nat → List Nat)
    (c : CBCCipher) (prim : GCMPrim) (g : GCMCipher) (data : List Nat) :
    (data.length < MAGIC_BYTES.length + CBC_IV_LENGTH →
      cbcDecrypt D c data =
        Except.error (WalrusErr.format "Invalid encrypted data: too short") ∧
      cbcDecryptOps data = [CryptoOp.keyImport]) ∧
    (data.take MAGIC_BYTES.length ≠ MAGIC_BYTES →
      gcmDecrypt prim g data =
        Except.error (WalrusErr.format "Invalid encrypted data: missing magic bytes") ∧
      gcmDecryptOps data = [CryptoOp.keyImport]) ∧
    (data.length < MAGIC_BYTES.length + GCM_IV_LENGTH →
      data.take MAGIC_BYTES.length = MAGIC_BYTES →
      gcmDecrypt prim g data =
        Except.error (WalrusErr.crypto
          "Decryption failed: invalid key or corrupted data") ∧
      gcmDecryptOps data = [CryptoOp.keyImport, CryptoOp.primitive]) := by
  refine ⟨?_, ?_, ?_⟩
  · intro h
    constructor
    · rw [cbcDecrypt, if_pos h]
    · rw [cbcDecryptOps, if_pos h]
  · intro h
    constructor
    · rw [gcmDecrypt, if_neg h]
    · rw [gcmDecryptOps, if_neg h]
  · intro hlen hmagic
    have hdrop : data.drop (MAGIC_BYTES.length + GCM_IV_LENGTH) = [] := by
      apply List.drop_eq_nil_of_le
      simp only [MAGIC_BYTES, GCM_IV_LENGTH, List.length_cons] at *
      omega
    constructor
    · rw [gcmDecrypt, if_pos hmagic]
      simp only
      rw [hdrop, subtleDecryptGCM, if_pos (by simp)]
    · rw [gcmDecryptOps, if_pos hmagic]

theorem short_input_claim_amended_witness :
    cbcDecrypt idBlockCipher ⟨List.replicate 32 0, List.replicate 16 0⟩
      (List.replicate 10 0) =
      Except.error (WalrusErr.format "Invalid encrypted data: too short") ∧
    gcmDecrypt trivGCMPrim ⟨List.replicate 32 1⟩ (List.replicate 10 0) =
      Except.error (WalrusErr.format "Invalid encrypted data: missing magic bytes") :=
  ⟨((short_input_claim_amended idBlockCipher
      ⟨List.replicate 32 0, List.replicate 16 0⟩ trivGCMPrim
      ⟨List.replicate 32 1⟩ (List.replicate 10 0)).1 (by decide)).1,
   ((short_input_claim_amended idBlockCipher
      ⟨List.replicate 32 0, List.replicate 16 0⟩ trivGCMPrim
      ⟨List.replicate 32 1⟩ (List.replicate 10 0)).2.1 (by decide)).1⟩
